import Mathlib

/-!
Verification development for the sieve-analysis application
(`sieve_analysis_app.py`).

The numerical core of the program is embedded shallowly:

* Machine floating-point values are modelled by `PyVal`, an extended
  rational type with `+inf`, `-inf` and `nan`, with the IEEE-754
  special-value propagation rules used by numpy/pandas (finite
  arithmetic is modelled exactly over `ℚ`; only one signed zero, `+0`,
  is modelled).
* `weight_retained` models line 81 (`float(x.strip())` over the
  comma-separated tokens); `pyFloat` models CPython's `float`
  constructor on a single already-stripped token (sign, decimal
  literal with optional fraction and exponent, and the case-insensitive
  `inf`/`infinity`/`nan` forms; digit-group underscores are not
  modelled as no claim involves them).
* `total_weight`, `pctRetained`, `cumulativePctRetained`, `pctPassing`
  model lines 90-93 (the `% Retained`, `Cumulative % Retained` and
  `% Passing` dataframe columns).
* `runApp` models the control flow of lines 79-96: empty input does
  nothing, a bad token is a parse failure, a wrong count produces the
  `st.error` count message, and otherwise the table is emitted.
* The interpretation stage (lines 122-135) consumes the float columns;
  it is modelled over exact rationals (`pctRetainedQ`, …,
  `interpolate_diameter`, `CuOf`, `CcOf`, `classificationOf`,
  `interpret`).  `np_interp` models `numpy.interp` for the
  non-decreasing `xp` sequences this program feeds it (binary-search
  index `j` = number of entries `≤ x`, clamping to the first/last `fp`
  entry outside the observed range).
-/

/-- A Python/numpy double: a finite rational, `+inf`, `-inf` or `nan`. -/
inductive PyVal where
  | fin (q : ℚ)
  | inf
  | ninf
  | nan
deriving DecidableEq

/-- IEEE negation. -/
def pyNeg : PyVal → PyVal
  | .fin q => .fin (-q)
  | .inf => .ninf
  | .ninf => .inf
  | .nan => .nan

/-- IEEE addition (`nan` absorbs, `inf + -inf = nan`). -/
def pyAdd : PyVal → PyVal → PyVal
  | .nan, _ => .nan
  | _, .nan => .nan
  | .fin a, .fin b => .fin (a + b)
  | .fin _, .inf => .inf
  | .fin _, .ninf => .ninf
  | .inf, .fin _ => .inf
  | .ninf, .fin _ => .ninf
  | .inf, .inf => .inf
  | .ninf, .ninf => .ninf
  | .inf, .ninf => .nan
  | .ninf, .inf => .nan

/-- IEEE subtraction. -/
def pySub (a b : PyVal) : PyVal := pyAdd a (pyNeg b)

/-- IEEE multiplication (`0 * inf = nan`). -/
def pyMul : PyVal → PyVal → PyVal
  | .nan, _ => .nan
  | _, .nan => .nan
  | .fin a, .fin b => .fin (a * b)
  | .fin a, .inf => if 0 < a then .inf else if a < 0 then .ninf else .nan
  | .fin a, .ninf => if 0 < a then .ninf else if a < 0 then .inf else .nan
  | .inf, .fin b => if 0 < b then .inf else if b < 0 then .ninf else .nan
  | .ninf, .fin b => if 0 < b then .ninf else if b < 0 then .inf else .nan
  | .inf, .inf => .inf
  | .inf, .ninf => .ninf
  | .ninf, .inf => .ninf
  | .ninf, .ninf => .inf

/-- numpy division (`0/0 = nan`, `x/0 = ±inf`, `inf/inf = nan`;
only the zero `+0` is modelled, so `x / ±inf = +0`). -/
def pyDiv : PyVal → PyVal → PyVal
  | .nan, _ => .nan
  | _, .nan => .nan
  | .fin a, .fin b =>
      if b = 0 then (if a = 0 then .nan else if 0 < a then .inf else .ninf)
      else .fin (a / b)
  | .fin _, .inf => .fin 0
  | .fin _, .ninf => .fin 0
  | .inf, .fin b => if b < 0 then .ninf else .inf
  | .ninf, .fin b => if b < 0 then .inf else .ninf
  | .inf, .inf => .nan
  | .inf, .ninf => .nan
  | .ninf, .inf => .nan
  | .ninf, .ninf => .nan

/-- Line 17: the fixed sieve openings (mm), largest first, pan (`0.0`) last. -/
def sieve_sizes : List ℚ := [4.75, 2.36, 1.18, 0.600, 0.300, 0.150, 0.075, 0.0]

/-- Value of a digit string, most significant first. -/
def natOfDigits (cs : List Char) : ℕ := cs.foldl (fun a c => 10 * a + (c.toNat - 48)) 0

/-- Exponent suffix of a Python float literal: empty, or `e`/`E`
followed by an optional sign and a nonempty digit string. -/
def parseExpPart : List Char → Option ℤ
  | [] => some 0
  | e :: rest =>
    if e = 'e' ∨ e = 'E' then
      match rest with
      | '-' :: ds => if ds ≠ [] ∧ ds.all Char.isDigit then some (-(natOfDigits ds : ℤ)) else none
      | '+' :: ds => if ds ≠ [] ∧ ds.all Char.isDigit then some (natOfDigits ds : ℤ) else none
      | ds => if ds ≠ [] ∧ ds.all Char.isDigit then some (natOfDigits ds : ℤ) else none
    else none

/-- Unsigned decimal part of a Python float literal:
`digits [. digits] [exp]` with at least one digit. -/
def parseDecimal (cs : List Char) : Option ℚ :=
  let ip := cs.takeWhile Char.isDigit
  let r1 := cs.dropWhile Char.isDigit
  match r1 with
  | '.' :: r2 =>
      let fp := r2.takeWhile Char.isDigit
      let r3 := r2.dropWhile Char.isDigit
      if ip = [] ∧ fp = [] then none
      else (parseExpPart r3).map (fun e =>
        ((natOfDigits ip : ℚ) + (natOfDigits fp : ℚ) / (10 : ℚ) ^ fp.length) * (10 : ℚ) ^ e)
  | _ =>
      if ip = [] then none
      else (parseExpPart r1).map (fun e => (natOfDigits ip : ℚ) * (10 : ℚ) ^ e)

/-- Optional leading sign of a token; returns (is-negative, rest). -/
def parseSign : List Char → (Bool × List Char)
  | '-' :: r => (true, r)
  | '+' :: r => (false, r)
  | r => (false, r)

/-- CPython `float(token)` on an already-stripped token:
signed `inf`/`infinity`/`nan` (case-insensitive) or a signed decimal
literal; `none` models the `ValueError` for a non-numeric token. -/
def pyFloat (s : String) : Option PyVal :=
  let (neg, body) := parseSign s.toList
  let low := body.map Char.toLower
  if low = ['i', 'n', 'f'] ∨ low = ['i', 'n', 'f', 'i', 'n', 'i', 't', 'y'] then
    some (if neg then .ninf else .inf)
  else if low = ['n', 'a', 'n'] then some .nan
  else (parseDecimal body).map (fun q => .fin (if neg then -q else q))

/-- Line 81, the list comprehension: the first invalid token aborts the
whole parse (Python raises on it), otherwise all parsed values are kept
in order. -/
def parseTokens : List String → Option (List PyVal)
  | [] => some []
  | t :: r =>
    match pyFloat t.trim, parseTokens r with
    | some v, some vs => some (v :: vs)
    | _, _ => none

/-- Line 81: `[float(x.strip()) for x in user_input.split(',')]`. -/
def weight_retained (input : String) : Option (List PyVal) :=
  parseTokens (input.splitOn (","))

/-- Line 90: `df['Weight Retained (g)'].sum()` — pandas `Series.sum`
defaults to `skipna=True`: a NaN entry is skipped (contributes as 0),
the remaining values accumulate left to right from `0.0` with IEEE
rules (so `inf` and `-inf` together still yield NaN). -/
def total_weight (ws : List PyVal) : PyVal :=
  ws.foldl (fun acc w => if w = .nan then acc else pyAdd acc w) (.fin 0)

/-- Line 91: `(df['Weight Retained (g)'] / total_weight) * 100`. -/
def pctRetained (ws : List PyVal) : List PyVal :=
  ws.map (fun w => pyMul (pyDiv w (total_weight ws)) (.fin 100))

/-- Running sums of a list starting from accumulator `acc`, with pandas
`Series.cumsum` NaN handling (`skipna=True`): a NaN entry yields NaN at
its own position but is skipped (added as 0) by the accumulation, which
continues past it; a NaN produced by the accumulation itself
(`inf + -inf`) propagates through `pyAdd` as in numpy. -/
def cumsumFrom (acc : PyVal) : List PyVal → List PyVal
  | [] => []
  | a :: r =>
    if a = .nan then .nan :: cumsumFrom acc r
    else pyAdd acc a :: cumsumFrom (pyAdd acc a) r

/-- Line 92: `df['% Retained'].cumsum()`. -/
def cumulativePctRetained (ws : List PyVal) : List PyVal :=
  cumsumFrom (.fin 0) (pctRetained ws)

/-- Line 93: `100 - df['Cumulative % Retained']`. -/
def pctPassing (ws : List PyVal) : List PyVal :=
  (cumulativePctRetained ws).map (fun c => pySub (.fin 100) c)

/-- The dataframe built at lines 85-93: one column per `df` column. -/
structure GradationTable where
  sizes : List ℚ
  weights : List PyVal
  pctRet : List PyVal
  cumRet : List PyVal
  passing : List PyVal
deriving DecidableEq

/-- Lines 85-93 assembled into one table value. -/
def mkTable (ws : List PyVal) : GradationTable :=
  ⟨sieve_sizes, ws, pctRetained ws, cumulativePctRetained ws, pctPassing ws⟩

/-- What the app surfaces for one submitted input.  `parseError` is the
caught `ValueError` of line 81 (reported at line 152); `countMismatch`
carries the `st.error` message of line 83; `emitted` is the table shown
by `st.dataframe` at line 96.  `degenerateInput` is the spec's
`DegenerateInputError`; the source has no corresponding code path. -/
inductive AppOutcome where
  | noOutput
  | parseError
  | countMismatch (msg : String)
  | degenerateInput
  | emitted (t : GradationTable)
deriving DecidableEq

/-- Lines 79-96: the validation and table-building control flow of the
app for a submitted input string. -/
def runApp (input : String) : AppOutcome :=
  if input = "" then .noOutput
  else
    match weight_retained input with
    | none => .parseError
    | some ws =>
      if ws.length ≠ sieve_sizes.length then
        .countMismatch ("Please enter exactly " ++ toString sieve_sizes.length ++ " values.")
      else .emitted (mkTable ws)

/-- Exact-value (rational) view of line 90. -/
def totalQ (ws : List ℚ) : ℚ := ws.sum

/-- Exact-value view of line 91. -/
def pctRetainedQ (ws : List ℚ) : List ℚ := ws.map (fun w => w / totalQ ws * 100)

/-- Exact-value running sums (pandas `cumsum`). -/
def cumsumQFrom (acc : ℚ) : List ℚ → List ℚ
  | [] => []
  | a :: r => (acc + a) :: cumsumQFrom (acc + a) r

/-- Exact-value view of line 92. -/
def cumulativePctRetainedQ (ws : List ℚ) : List ℚ := cumsumQFrom 0 (pctRetainedQ ws)

/-- Exact-value view of line 93. -/
def pctPassingQ (ws : List ℚ) : List ℚ := (cumulativePctRetainedQ ws).map (fun c => 100 - c)

/-- `numpy.interp x xp fp` for the non-decreasing `xp` this program
produces: with `j` the number of entries of `xp` that are `≤ x`,
clamp to `fp.head` when `j = 0`, to `fp.getLast` when `j = xp.length`,
and otherwise interpolate linearly between the points at `j - 1`
and `j`. -/
def np_interp (x : ℚ) (xp fp : List ℚ) : ℚ :=
  let j := xp.countP (fun v => decide (v ≤ x))
  if j = 0 then fp.headD 0
  else if j = xp.length then fp.getLastD 0
  else
    let x0 := xp.getD (j - 1) 0
    let x1 := xp.getD j 0
    let y0 := fp.getD (j - 1) 0
    let y1 := fp.getD j 0
    y0 + (y1 - y0) * (x - x0) / (x1 - x0)

/-- Lines 122-123: `np.interp(percent, df['% Passing'][::-1],
df['Sieve Size (mm)'][::-1])` — both columns reversed, all eight rows
(the pan row included). -/
def interpolate_diameter (ws : List ℚ) (percent : ℚ) : ℚ :=
  np_interp percent (pctPassingQ ws).reverse sieve_sizes.reverse

/-- Following the spec's words, for comparison with
`interpolate_diameter`: the interpolation curve restricted to the
(%passing, sieve size) pairs with sieve size `> 0` (pan excluded). -/
def interpolate_diameter_panExcluded (ws : List ℚ) (percent : ℚ) : ℚ :=
  let pairs := (sieve_sizes.zip (pctPassingQ ws)).filter (fun p => decide (0 < p.1))
  np_interp percent (pairs.map Prod.snd).reverse (pairs.map Prod.fst).reverse

/-- Line 128: `D60 / D10 if D10 else float('inf')`. -/
def CuOf (d10 d60 : ℚ) : PyVal :=
  if d10 ≠ 0 then .fin (d60 / d10) else .inf

/-- Line 129: `(D30 ** 2) / (D10 * D60) if D10 and D60 else float('inf')`. -/
def CcOf (d10 d30 d60 : ℚ) : PyVal :=
  if d10 ≠ 0 ∧ d60 ≠ 0 then .fin (d30 ^ 2 / (d10 * d60)) else .inf

/-- Lines 131-135: the D10-threshold classification string. -/
def classificationOf (d10 : ℚ) : String :=
  if d10 < 0.075 then ("Fine soil (silt/clay)")
  else if d10 < 2 then ("Sand")
  else ("Gravel or Coarse soil")

/-- The interpretation block of lines 122-145. -/
structure Interpretation where
  D10 : ℚ
  D30 : ℚ
  D60 : ℚ
  Cu : PyVal
  Cc : PyVal
  classification : String
deriving DecidableEq

/-- Lines 122-135: derived diameters, coefficients and classification. -/
def interpret (ws : List ℚ) : Interpretation :=
  let d10 := interpolate_diameter ws 10
  let d30 := interpolate_diameter ws 30
  let d60 := interpolate_diameter ws 60
  ⟨d10, d30, d60, CuOf d10 d60, CcOf d10 d30 d60, classificationOf d10⟩

/-! ### General lemmas about the embedded column computations -/

theorem pyAdd_nan_right (a : PyVal) : pyAdd a .nan = .nan := by
  cases a <;> rfl

theorem pyAdd_fin_fin (a b : ℚ) : pyAdd (.fin a) (.fin b) = .fin (a + b) := rfl

theorem pyMul_fin_fin (a b : ℚ) : pyMul (.fin a) (.fin b) = .fin (a * b) := rfl

theorem pyDiv_fin_fin (a b : ℚ) (hb : b ≠ 0) : pyDiv (.fin a) (.fin b) = .fin (a / b) := by
  simp [pyDiv, hb]

theorem pySub_fin_fin (a b : ℚ) : pySub (.fin a) (.fin b) = .fin (a - b) := by
  simp [pySub, pyNeg, pyAdd, sub_eq_add_neg]

theorem cumsumFrom_length (l : List PyVal) : ∀ acc, (cumsumFrom acc l).length = l.length := by
  induction l with
  | nil => intro acc; rfl
  | cons a r ih =>
    intro acc
    by_cases h : a = PyVal.nan <;> simp [cumsumFrom, h, ih]

theorem cumsumQFrom_length (l : List ℚ) : ∀ acc, (cumsumQFrom acc l).length = l.length := by
  induction l with
  | nil => intro acc; rfl
  | cons a r ih => intro acc; simp [cumsumQFrom, ih]

theorem cumsumFrom_getElem? (l : List PyVal) (hl : ∀ a ∈ l, a ≠ PyVal.nan) :
    ∀ (acc : PyVal) (i : ℕ), i < l.length →
    (cumsumFrom acc l)[i]? = some ((l.take (i + 1)).foldl pyAdd acc) := by
  induction l with
  | nil => intro acc i h; simp at h
  | cons a r ih =>
    intro acc i h
    have ha : a ≠ PyVal.nan := hl a (List.mem_cons_self a r)
    match i with
    | 0 => simp [cumsumFrom, ha]
    | i + 1 =>
      simp only [cumsumFrom, if_neg ha, List.getElem?_cons_succ, List.take_succ_cons,
        List.foldl_cons]
      exact ih (fun b hb => hl b (List.mem_cons_of_mem a hb)) (pyAdd acc a) i (by simpa using h)

theorem foldl_total_fin (l : List ℚ) : ∀ q : ℚ,
    List.foldl (fun acc w => if w = PyVal.nan then acc else pyAdd acc w) (.fin q)
      (l.map .fin) = .fin (q + l.sum) := by
  induction l with
  | nil => intro q; simp
  | cons a r ih =>
    intro q
    have hne : PyVal.fin a ≠ PyVal.nan := by simp
    simp only [List.map_cons, List.foldl_cons, List.sum_cons, if_neg hne, pyAdd_fin_fin, ih]
    congr 1
    ring

theorem total_weight_map_fin (ws : List ℚ) : total_weight (ws.map .fin) = .fin ws.sum := by
  simpa [total_weight] using foldl_total_fin ws 0

theorem pctRetained_map_fin (ws : List ℚ) (h : ws.sum ≠ 0) :
    pctRetained (ws.map .fin) = (pctRetainedQ ws).map .fin := by
  simp only [pctRetained, pctRetainedQ, total_weight_map_fin, List.map_map]
  refine List.map_congr_left (fun w _ => ?_)
  simp only [Function.comp_apply, pyDiv_fin_fin w ws.sum h, pyMul_fin_fin]
  rfl

theorem cumsumFrom_map_fin (l : List ℚ) : ∀ q : ℚ,
    cumsumFrom (.fin q) (l.map .fin) = (cumsumQFrom q l).map .fin := by
  induction l with
  | nil => intro q; rfl
  | cons a r ih =>
    intro q
    have hne : PyVal.fin a ≠ PyVal.nan := by simp
    simp only [List.map_cons, cumsumFrom, cumsumQFrom, if_neg hne, pyAdd_fin_fin, ih]

theorem cumulativePctRetained_map_fin (ws : List ℚ) (h : ws.sum ≠ 0) :
    cumulativePctRetained (ws.map .fin) = (cumulativePctRetainedQ ws).map .fin := by
  rw [cumulativePctRetained, pctRetained_map_fin ws h, cumulativePctRetainedQ,
    cumsumFrom_map_fin]

theorem pctPassing_map_fin (ws : List ℚ) (h : ws.sum ≠ 0) :
    pctPassing (ws.map .fin) = (pctPassingQ ws).map .fin := by
  rw [pctPassing, cumulativePctRetained_map_fin ws h, pctPassingQ, List.map_map, List.map_map]
  refine List.map_congr_left (fun c _ => ?_)
  simp [Function.comp_apply, pySub_fin_fin]

theorem sum_map_div_mul (l : List ℚ) (T : ℚ) :
    (l.map (fun w => w / T * 100)).sum = l.sum / T * 100 := by
  induction l with
  | nil => simp
  | cons a r ih =>
    simp only [List.map_cons, List.sum_cons, ih]
    ring

theorem sum_pctRetainedQ (ws : List ℚ) (h : ws.sum ≠ 0) : (pctRetainedQ ws).sum = 100 := by
  rw [pctRetainedQ, totalQ, sum_map_div_mul, div_self h, one_mul]

theorem pctRetainedQ_nonneg (ws : List ℚ) (hnn : ∀ w ∈ ws, 0 ≤ w) (hpos : 0 < ws.sum) :
    ∀ x ∈ pctRetainedQ ws, 0 ≤ x := by
  intro x hx
  simp only [pctRetainedQ, List.mem_map] at hx
  obtain ⟨w, hw, rfl⟩ := hx
  have h1 : 0 ≤ w := hnn w hw
  have h2 : (0 : ℚ) ≤ totalQ ws := le_of_lt hpos
  exact mul_nonneg (div_nonneg h1 h2) (by norm_num)

theorem cumsumQFrom_chain (l : List ℚ) (h : ∀ x ∈ l, 0 ≤ x) :
    ∀ acc, List.Chain' (· ≤ ·) (cumsumQFrom acc l) := by
  induction l with
  | nil => intro acc; simp [cumsumQFrom]
  | cons a r ih =>
    intro acc
    have h2 := ih (fun x hx => h x (List.mem_cons_of_mem _ hx)) (acc + a)
    cases r with
    | nil => simp [cumsumQFrom]
    | cons b r2 =>
      have hb : 0 ≤ b := h b (by simp)
      simp only [cumsumQFrom] at h2 ⊢
      exact List.chain'_cons.mpr ⟨by linarith, h2⟩

theorem foldl_skipnan_nonfin : ∀ (l : List PyVal) (acc : PyVal),
    (∀ q : ℚ, acc ≠ .fin q) → ∀ q : ℚ,
    List.foldl (fun a w => if w = PyVal.nan then a else pyAdd a w) acc l ≠ .fin q := by
  intro l
  induction l with
  | nil => intro acc h q; exact h q
  | cons w r ih =>
    intro acc h q
    rw [List.foldl_cons]
    apply ih
    intro p
    show (if w = PyVal.nan then acc else pyAdd acc w) ≠ PyVal.fin p
    by_cases hw : w = PyVal.nan
    · rw [if_pos hw]
      exact h p
    · rw [if_neg hw]
      cases acc with
      | fin s => exact absurd rfl (h s)
      | inf => cases w <;> simp [pyAdd]
      | ninf => cases w <;> simp [pyAdd]
      | nan => cases w <;> simp [pyAdd]

theorem step_inf_nonfin (A : PyVal) (p : ℚ) :
    (if PyVal.inf = PyVal.nan then A else pyAdd A PyVal.inf) ≠ PyVal.fin p := by
  rw [if_neg (by simp)]
  cases A <;> simp [pyAdd]

theorem step_ninf_nonfin (A : PyVal) (p : ℚ) :
    (if PyVal.ninf = PyVal.nan then A else pyAdd A PyVal.ninf) ≠ PyVal.fin p := by
  rw [if_neg (by simp)]
  cases A <;> simp [pyAdd]

theorem weights_fin_of_total (ws : List PyVal) (t : ℚ) (ht : total_weight ws = .fin t)
    (hfin : ∀ w ∈ ws, w ≠ PyVal.nan) : ∀ w ∈ ws, ∃ q : ℚ, w = .fin q := by
  intro w hw
  cases hwc : w with
  | fin q => exact ⟨q, rfl⟩
  | nan => exact absurd hwc (hfin w hw)
  | inf =>
    exfalso
    obtain ⟨l1, l2, rfl⟩ := List.append_of_mem hw
    subst hwc
    rw [total_weight, List.foldl_append, List.foldl_cons] at ht
    exact foldl_skipnan_nonfin l2 _ (fun p => step_inf_nonfin _ p) t ht
  | ninf =>
    exfalso
    obtain ⟨l1, l2, rfl⟩ := List.append_of_mem hw
    subst hwc
    rw [total_weight, List.foldl_append, List.foldl_cons] at ht
    exact foldl_skipnan_nonfin l2 _ (fun p => step_ninf_nonfin _ p) t ht

theorem pctPassingQ_antitone (ws : List ℚ)
    (h : List.Chain' (· ≤ ·) (cumulativePctRetainedQ ws)) :
    List.Chain' (fun a b => b ≤ a) (pctPassingQ ws) := by
  rw [pctPassingQ, List.chain'_map]
  exact h.imp (fun a b hab => by linarith)

/-! ### Claim theorems -/

/-- C1: for every accepted input (exactly 8 parsed numeric weights, none
NaN) with positive finite total, the table of lines 90-93 is computed row
by row in sieve order (since line 90's sum is `skipna`, a finite total by
itself would not rule out NaN weights, so NaN-freeness is assumed; with
it, every weight is finite and line 92's `skipna` cumsum coincides with
the plain running sum):
`% Retained i = weight i / total * 100`, `Cumulative % Retained i` is the
running sum of `% Retained 0..i` in largest-to-smallest order, and
`% Passing i = 100 - Cumulative % Retained i`. -/
theorem c1_rowwise_formulas (ws : List PyVal) (h8 : ws.length = 8)
    (t : ℚ) (ht : total_weight ws = .fin t) (hpos : 0 < t)
    (hfin : ∀ w ∈ ws, w ≠ PyVal.nan) :
    ∀ i, i < 8 →
      (pctRetained ws)[i]? =
        (ws[i]?).map (fun w => pyMul (pyDiv w (total_weight ws)) (.fin 100))
      ∧ (cumulativePctRetained ws)[i]? =
          some (((pctRetained ws).take (i + 1)).foldl pyAdd (.fin 0))
      ∧ (pctPassing ws)[i]? =
          ((cumulativePctRetained ws)[i]?).map (fun c => pySub (.fin 100) c) := by
  have hws : ∀ w ∈ ws, ∃ q : ℚ, w = .fin q := weights_fin_of_total ws t ht hfin
  have ht0 : t ≠ 0 := ne_of_gt hpos
  have hpct : ∀ p ∈ pctRetained ws, p ≠ PyVal.nan := by
    intro p hp
    rw [pctRetained] at hp
    obtain ⟨w, hw, rfl⟩ := List.mem_map.mp hp
    obtain ⟨q, rfl⟩ := hws w hw
    rw [ht, pyDiv_fin_fin q t ht0, pyMul_fin_fin]
    simp
  intro i hi
  refine ⟨?_, ?_, ?_⟩
  · simp [pctRetained, List.getElem?_map]
  · exact cumsumFrom_getElem? (pctRetained ws) hpct (.fin 0) i
      (by simp [pctRetained, h8]; omega)
  · simp [pctPassing, List.getElem?_map]

set_option maxRecDepth 10000 in
/-- Witness for C1 at the spec's worked example, row 2. -/
theorem c1_rowwise_formulas_witness :
    (pctRetained [.fin 0, .fin 50, .fin 100, .fin 150, .fin 150, .fin 100, .fin 50, .fin 0])[2]? =
      (([.fin 0, .fin 50, .fin 100, .fin 150, .fin 150, .fin 100, .fin 50,
          .fin 0] : List PyVal)[2]?).map
        (fun w => pyMul (pyDiv w (total_weight
          [.fin 0, .fin 50, .fin 100, .fin 150, .fin 150, .fin 100, .fin 50, .fin 0])) (.fin 100))
    ∧ (cumulativePctRetained
        [.fin 0, .fin 50, .fin 100, .fin 150, .fin 150, .fin 100, .fin 50, .fin 0])[2]? =
        some (((pctRetained
          [.fin 0, .fin 50, .fin 100, .fin 150, .fin 150, .fin 100, .fin 50,
            .fin 0]).take 3).foldl pyAdd (.fin 0))
    ∧ (pctPassing [.fin 0, .fin 50, .fin 100, .fin 150, .fin 150, .fin 100, .fin 50, .fin 0])[2]? =
        ((cumulativePctRetained
          [.fin 0, .fin 50, .fin 100, .fin 150, .fin 150, .fin 100, .fin 50,
            .fin 0])[2]?).map (fun c => pySub (.fin 100) c) :=
  c1_rowwise_formulas
    [.fin 0, .fin 50, .fin 100, .fin 150, .fin 150, .fin 100, .fin 50, .fin 0]
    (by decide) 600 (by with_unfolding_all decide) (by with_unfolding_all decide)
    (by decide) 2 (by decide)

/-- C2: for every vector of 8 non-negative weights with positive total, the
finite-float columns agree with the exact rational columns; the % retained
values sum to exactly 100 (hence within any floating-point tolerance);
cumulative % retained is non-decreasing in coarsest-to-pan order and
% passing is non-increasing. -/
theorem c2_invariants (ws : List ℚ) (h8 : ws.length = 8) (hnn : ∀ w ∈ ws, 0 ≤ w)
    (hpos : 0 < ws.sum) :
    pctRetained (ws.map .fin) = (pctRetainedQ ws).map .fin
    ∧ (pctRetainedQ ws).sum = 100
    ∧ cumulativePctRetained (ws.map .fin) = (cumulativePctRetainedQ ws).map .fin
    ∧ List.Chain' (· ≤ ·) (cumulativePctRetainedQ ws)
    ∧ pctPassing (ws.map .fin) = (pctPassingQ ws).map .fin
    ∧ List.Chain' (fun a b => b ≤ a) (pctPassingQ ws) := by
  have hs : ws.sum ≠ 0 := ne_of_gt hpos
  have hc : List.Chain' (· ≤ ·) (cumulativePctRetainedQ ws) :=
    cumsumQFrom_chain _ (pctRetainedQ_nonneg ws hnn hpos) 0
  exact ⟨pctRetained_map_fin ws hs, sum_pctRetainedQ ws hs,
    cumulativePctRetained_map_fin ws hs, hc, pctPassing_map_fin ws hs,
    pctPassingQ_antitone ws hc⟩

/-- Witness for C2 at the spec's worked example. -/
theorem c2_invariants_witness :
    pctRetained (([0, 50, 100, 150, 150, 100, 50, 0] : List ℚ).map .fin) =
      (pctRetainedQ [0, 50, 100, 150, 150, 100, 50, 0]).map .fin
    ∧ (pctRetainedQ [0, 50, 100, 150, 150, 100, 50, 0]).sum = 100
    ∧ cumulativePctRetained (([0, 50, 100, 150, 150, 100, 50, 0] : List ℚ).map .fin) =
        (cumulativePctRetainedQ [0, 50, 100, 150, 150, 100, 50, 0]).map .fin
    ∧ List.Chain' (· ≤ ·) (cumulativePctRetainedQ [0, 50, 100, 150, 150, 100, 50, 0])
    ∧ pctPassing (([0, 50, 100, 150, 150, 100, 50, 0] : List ℚ).map .fin) =
        (pctPassingQ [0, 50, 100, 150, 150, 100, 50, 0]).map .fin
    ∧ List.Chain' (fun a b => b ≤ a) (pctPassingQ [0, 50, 100, 150, 150, 100, 50, 0]) :=
  c2_invariants [0, 50, 100, 150, 150, 100, 50, 0] (by decide)
    (by with_unfolding_all decide) (by with_unfolding_all decide)

/-- C3 counterexample: the all-zero input raises nothing — the table IS
emitted (with `0/0 = nan` percentage columns), so the program does not
fail with a `DegenerateInputError` and a table is produced. -/
theorem c3_counterexample :
    runApp ("0,0,0,0,0,0,0,0") =
      AppOutcome.emitted ⟨sieve_sizes, List.replicate 8 (.fin 0),
        List.replicate 8 .nan, List.replicate 8 .nan, List.replicate 8 .nan⟩
    ∧ runApp ("0,0,0,0,0,0,0,0") ≠ AppOutcome.degenerateInput := by
  exact ⟨by with_unfolding_all decide, by with_unfolding_all decide⟩

/-- C3 (amended): an all-zero weight vector of any positive length is not
rejected; the division `0/0` makes every percentage column entirely `nan`
and the table is still emitted. -/
theorem c3_zero_total_nan (n : ℕ) (hn : 0 < n) :
    pctRetained (List.replicate n (.fin 0)) = List.replicate n .nan
    ∧ cumulativePctRetained (List.replicate n (.fin 0)) = List.replicate n .nan
    ∧ pctPassing (List.replicate n (.fin 0)) = List.replicate n .nan := by
  have htot : total_weight (List.replicate n (.fin 0)) = .fin 0 := by
    have haux : ∀ m : ℕ, ∀ q : ℚ,
        List.foldl (fun acc w => if w = PyVal.nan then acc else pyAdd acc w) (.fin q)
          (List.replicate m (.fin 0)) = .fin q := by
      intro m
      induction m with
      | zero => intro q; rfl
      | succ m ih =>
        intro q
        have hne : PyVal.fin 0 ≠ PyVal.nan := by simp
        simp only [List.replicate_succ, List.foldl_cons, if_neg hne, pyAdd_fin_fin, add_zero]
        exact ih q
    simpa [total_weight] using haux n 0
  have hval : pyMul (pyDiv (PyVal.fin 0) (.fin 0)) (.fin 100) = .nan := by
    with_unfolding_all decide
  have h1 : pctRetained (List.replicate n (.fin 0)) = List.replicate n .nan := by
    rw [pctRetained, htot, List.map_replicate, hval]
  have hcum : ∀ m : ℕ, ∀ acc : PyVal,
      cumsumFrom acc (List.replicate m .nan) = List.replicate m .nan := by
    intro m
    induction m with
    | zero => intro acc; rfl
    | succ m ih =>
      intro acc
      rw [List.replicate_succ, cumsumFrom, if_pos rfl, ih]
  have h2 : cumulativePctRetained (List.replicate n (.fin 0)) = List.replicate n .nan := by
    rw [cumulativePctRetained, h1, hcum]
  have h3 : pctPassing (List.replicate n (.fin 0)) = List.replicate n .nan := by
    rw [pctPassing, h2, List.map_replicate]
    rfl
  exact ⟨h1, h2, h3⟩

/-- Witness for the amended C3 at the 8-sieve configuration. -/
theorem c3_zero_total_nan_witness :
    0 < 8
    ∧ (pctRetained (List.replicate 8 (.fin 0)) = List.replicate 8 .nan
      ∧ cumulativePctRetained (List.replicate 8 (.fin 0)) = List.replicate 8 .nan
      ∧ pctPassing (List.replicate 8 (.fin 0)) = List.replicate 8 .nan) :=
  ⟨by decide, c3_zero_total_nan 8 (by decide)⟩

/-- C7: the Cu/Cc computation of lines 128-129 never divides unguarded:
`interpret` computes them through `CuOf`/`CcOf`, `Cu` resolves to the
`+inf` sentinel when `D10 = 0`, `Cc` resolves to the `+inf` sentinel when
`D10 = 0` or `D60 = 0`, and otherwise `Cu = D60/D10` and
`Cc = D30^2/(D10*D60)`. -/
theorem c7_inf_sentinels :
    (∀ ws : List ℚ,
        (interpret ws).Cu = CuOf (interpret ws).D10 (interpret ws).D60
        ∧ (interpret ws).Cc = CcOf (interpret ws).D10 (interpret ws).D30 (interpret ws).D60)
    ∧ ∀ d10 d30 d60 : ℚ,
        (d10 = 0 → CuOf d10 d60 = .inf ∧ CcOf d10 d30 d60 = .inf)
        ∧ (d60 = 0 → CcOf d10 d30 d60 = .inf)
        ∧ (d10 ≠ 0 → CuOf d10 d60 = .fin (d60 / d10))
        ∧ (d10 ≠ 0 → d60 ≠ 0 → CcOf d10 d30 d60 = .fin (d30 ^ 2 / (d10 * d60))) := by
  constructor
  · intro ws; exact ⟨rfl, rfl⟩
  · intro d10 d30 d60
    refine ⟨?_, ?_, ?_, ?_⟩
    · rintro rfl
      exact ⟨by simp [CuOf], by simp [CcOf]⟩
    · rintro rfl
      simp [CcOf]
    · intro h
      simp [CuOf, h]
    · intro h1 h2
      simp [CcOf, h1, h2]

/-- Witness for C7 at concrete diameter values. -/
theorem c7_inf_sentinels_witness :
    CuOf 0 1 = .inf ∧ CcOf 0 1 1 = .inf ∧ CcOf 1 1 0 = .inf
    ∧ CuOf 2 1 = .fin (1 / 2) ∧ CcOf 2 3 4 = .fin (3 ^ 2 / (2 * 4)) :=
  ⟨((c7_inf_sentinels.2 0 1 1).1 rfl).1,
   ((c7_inf_sentinels.2 0 1 1).1 rfl).2,
   ((c7_inf_sentinels.2 1 1 0).2.1 rfl),
   ((c7_inf_sentinels.2 2 5 1).2.2.1 (by norm_num)),
   ((c7_inf_sentinels.2 2 3 4).2.2.2 (by norm_num) (by norm_num))⟩

/-- C9: whenever the parsed token count differs from the 8-entry sieve
list, the app reports the count-mismatch message naming exactly 8, and no
table is emitted. -/
theorem c9_count_mismatch (input : String) (ws : List PyVal)
    (hne : input ≠ "") (hp : weight_retained input = some ws) (hlen : ws.length ≠ 8) :
    runApp input =
      AppOutcome.countMismatch ("Please enter exactly " ++ toString (8 : ℕ) ++ " values.")
    ∧ ∀ t, runApp input ≠ AppOutcome.emitted t := by
  have h8 : sieve_sizes.length = 8 := rfl
  constructor
  · simp [runApp, hne, hp, h8, hlen]
  · intro t
    simp [runApp, hne, hp, h8, hlen]

/-- Witness for C9: two values instead of eight. -/
theorem c9_count_mismatch_witness :
    runApp ("1,2") =
      AppOutcome.countMismatch ("Please enter exactly " ++ toString (8 : ℕ) ++ " values.") :=
  (c9_count_mismatch ("1,2") [.fin 1, .fin 2] (by decide)
    (by with_unfolding_all decide) (by decide)).1

/-- C10: the parser accepts the non-finite tokens `nan` and `inf`; with
`inf` as first weight the total is `+inf` (nonzero) and the emitted table
contains non-finite percentage fields: `% Retained` starts with
`inf/inf = nan`, and the `skipna` cumsum keeps that NaN at its own
position (resuming with 0 afterwards), so `Cum. % Retained` is
`[NaN, 0, ..., 0]` and `% Passing` is `[NaN, 100, ..., 100]`. -/
theorem c10_nonfinite_accepted :
    pyFloat ("nan") = some .nan
    ∧ pyFloat ("inf") = some .inf
    ∧ weight_retained ("inf,1,1,1,1,1,1,1") =
        some [.inf, .fin 1, .fin 1, .fin 1, .fin 1, .fin 1, .fin 1, .fin 1]
    ∧ runApp ("inf,1,1,1,1,1,1,1") =
        AppOutcome.emitted ⟨sieve_sizes,
          [.inf, .fin 1, .fin 1, .fin 1, .fin 1, .fin 1, .fin 1, .fin 1],
          [.nan, .fin 0, .fin 0, .fin 0, .fin 0, .fin 0, .fin 0, .fin 0],
          [.nan, .fin 0, .fin 0, .fin 0, .fin 0, .fin 0, .fin 0, .fin 0],
          [.nan, .fin 100, .fin 100, .fin 100, .fin 100, .fin 100, .fin 100, .fin 100]⟩
    ∧ total_weight [.inf, .fin 1, .fin 1, .fin 1, .fin 1, .fin 1, .fin 1, .fin 1] = .inf
    ∧ (PyVal.inf ≠ .fin 0)
    ∧ PyVal.nan ∈ pctRetained [.inf, .fin 1, .fin 1, .fin 1, .fin 1, .fin 1, .fin 1, .fin 1]
    ∧ PyVal.nan ∈
        cumulativePctRetained [.inf, .fin 1, .fin 1, .fin 1, .fin 1, .fin 1, .fin 1, .fin 1]
    ∧ PyVal.nan ∈ pctPassing [.inf, .fin 1, .fin 1, .fin 1, .fin 1, .fin 1, .fin 1, .fin 1] :=
  ⟨by with_unfolding_all decide, by with_unfolding_all decide, by with_unfolding_all decide,
   by with_unfolding_all decide, by with_unfolding_all decide, by decide,
   by with_unfolding_all decide, by with_unfolding_all decide, by with_unfolding_all decide⟩

/-! ### Lemmas about `np_interp` on sorted data -/

theorem headD_eq_getD_zero (l : List ℚ) : l.headD 0 = l.getD 0 0 := by
  cases l <;> rfl

theorem getLastD_eq_getD : ∀ (l : List ℚ) (d : ℚ), l ≠ [] →
    l.getLastD d = l.getD (l.length - 1) 0
  | [], _, h => absurd rfl h
  | [a], _, _ => rfl
  | a :: b :: r2, d, _ => by
    rw [List.getLastD_cons]
    rw [getLastD_eq_getD (b :: r2) a (by simp)]
    simp

theorem count_tail_zero {x a : ℚ} {r : List ℚ} (hp : ∀ b ∈ r, a ≤ b) (ha : ¬ a ≤ x) :
    r.countP (fun v => decide (v ≤ x)) = 0 := by
  rw [List.countP_eq_zero]
  intro b hb
  simp only [decide_eq_true_eq]
  exact fun hbx => ha (le_trans (hp b hb) hbx)

theorem count_lt_gt (x : ℚ) : ∀ xp : List ℚ, List.Pairwise (· ≤ ·) xp →
    xp.countP (fun v => decide (v ≤ x)) < xp.length →
    x < xp.getD (xp.countP (fun v => decide (v ≤ x))) 0 := by
  intro xp
  induction xp with
  | nil => intro _ h; simp at h
  | cons a r ih =>
    intro hp hlt
    rw [List.pairwise_cons] at hp
    by_cases ha : a ≤ x
    · have hc : (a :: r).countP (fun v => decide (v ≤ x))
          = r.countP (fun v => decide (v ≤ x)) + 1 := by
        rw [List.countP_cons]
        simp [ha]
      rw [hc] at hlt ⊢
      rw [List.getD_cons_succ]
      exact ih hp.2 (by simpa using hlt)
    · have hc : (a :: r).countP (fun v => decide (v ≤ x)) = 0 := by
        rw [List.countP_cons, count_tail_zero hp.1 ha]
        simp [ha]
      rw [hc, List.getD_cons_zero]
      exact not_le.mp ha

theorem count_pos_le (x : ℚ) : ∀ xp : List ℚ, List.Pairwise (· ≤ ·) xp →
    0 < xp.countP (fun v => decide (v ≤ x)) →
    xp.getD (xp.countP (fun v => decide (v ≤ x)) - 1) 0 ≤ x := by
  intro xp
  induction xp with
  | nil => intro _ h; simp [List.countP_nil] at h
  | cons a r ih =>
    intro hp _
    rw [List.pairwise_cons] at hp
    by_cases ha : a ≤ x
    · have hc : (a :: r).countP (fun v => decide (v ≤ x))
          = r.countP (fun v => decide (v ≤ x)) + 1 := by
        rw [List.countP_cons]
        simp [ha]
      rw [hc, Nat.add_sub_cancel]
      rcases Nat.eq_zero_or_pos (r.countP (fun v => decide (v ≤ x))) with hz | hpos2
      · rw [hz, List.getD_cons_zero]
        exact ha
      · obtain ⟨m, hm⟩ : ∃ m, r.countP (fun v => decide (v ≤ x)) = m + 1 :=
          ⟨r.countP (fun v => decide (v ≤ x)) - 1, (Nat.succ_pred_eq_of_pos hpos2).symm⟩
        rw [hm, List.getD_cons_succ]
        have h2 := ih hp.2 hpos2
        rw [hm] at h2
        simpa using h2
    · have hc : (a :: r).countP (fun v => decide (v ≤ x)) = 0 := by
        rw [List.countP_cons, count_tail_zero hp.1 ha]
        simp [ha]
      rename_i hpos0
      rw [hc] at hpos0
      exact absurd hpos0 (by simp)

theorem pairwise_getD_mono {l : List ℚ} (hl : List.Pairwise (· ≤ ·) l)
    {i k : ℕ} (hik : i ≤ k) (hk : k < l.length) : l.getD i 0 ≤ l.getD k 0 := by
  rcases Nat.eq_or_lt_of_le hik with rfl | hlt
  · exact le_refl _
  · have hi : i < l.length := lt_trans hlt hk
    rw [List.getD_eq_getElem _ _ hi, List.getD_eq_getElem _ _ hk]
    exact List.pairwise_iff_getElem.mp hl i k hi hk hlt

theorem np_interp_eq (x : ℚ) (xp fp : List ℚ) :
    np_interp x xp fp =
      if xp.countP (fun v => decide (v ≤ x)) = 0 then fp.headD 0
      else if xp.countP (fun v => decide (v ≤ x)) = xp.length then fp.getLastD 0
      else
        fp.getD (xp.countP (fun v => decide (v ≤ x)) - 1) 0
        + (fp.getD (xp.countP (fun v => decide (v ≤ x))) 0
            - fp.getD (xp.countP (fun v => decide (v ≤ x)) - 1) 0)
          * (x - xp.getD (xp.countP (fun v => decide (v ≤ x)) - 1) 0)
          / (xp.getD (xp.countP (fun v => decide (v ≤ x))) 0
            - xp.getD (xp.countP (fun v => decide (v ≤ x)) - 1) 0) := rfl

theorem np_interp_upper (x : ℚ) (xp fp : List ℚ) (hne : xp ≠ [])
    (hlen : xp.length = fp.length) (hxp : List.Pairwise (· ≤ ·) xp)
    (hfp : List.Pairwise (· ≤ ·) fp) :
    np_interp x xp fp ≤
      fp.getD (min (xp.countP (fun v => decide (v ≤ x))) (xp.length - 1)) 0 := by
  have hnpos : 0 < xp.length := List.length_pos.mpr hne
  rw [np_interp_eq]
  split_ifs with h0 hL
  · rw [h0, headD_eq_getD_zero]
    simp
  · have hfne : fp ≠ [] := by
      intro hh
      rw [hh, List.length_nil] at hlen
      omega
    rw [hL, getLastD_eq_getD fp 0 hfne]
    have hmin : min xp.length (xp.length - 1) = xp.length - 1 :=
      Nat.min_eq_right (Nat.sub_le _ _)
    rw [hmin, hlen]
  · set j := xp.countP (fun v => decide (v ≤ x)) with hj
    have hj_pos : 0 < j := Nat.pos_of_ne_zero h0
    have hj_lt : j < xp.length := lt_of_le_of_ne (List.countP_le_length _) hL
    have hx0 : xp.getD (j - 1) 0 ≤ x := count_pos_le x xp hxp hj_pos
    have hx1 : x < xp.getD j 0 := count_lt_gt x xp hxp hj_lt
    have hyle : fp.getD (j - 1) 0 ≤ fp.getD j 0 :=
      pairwise_getD_mono hfp (Nat.sub_le j 1) (hlen ▸ hj_lt)
    have hmin : min j (xp.length - 1) = j := Nat.min_eq_left (by omega)
    rw [hmin]
    have hd : 0 < xp.getD j 0 - xp.getD (j - 1) 0 := by linarith
    have key : (fp.getD j 0 - fp.getD (j - 1) 0) * (x - xp.getD (j - 1) 0)
        ≤ (fp.getD j 0 - fp.getD (j - 1) 0) * (xp.getD j 0 - xp.getD (j - 1) 0) :=
      mul_le_mul_of_nonneg_left (by linarith) (by linarith)
    have h2 : (fp.getD j 0 - fp.getD (j - 1) 0) * (x - xp.getD (j - 1) 0)
          / (xp.getD j 0 - xp.getD (j - 1) 0)
        ≤ (fp.getD j 0 - fp.getD (j - 1) 0) * (xp.getD j 0 - xp.getD (j - 1) 0)
          / (xp.getD j 0 - xp.getD (j - 1) 0) :=
      (div_le_div_iff_of_pos_right hd).mpr key
    have h3 : (fp.getD j 0 - fp.getD (j - 1) 0) * (xp.getD j 0 - xp.getD (j - 1) 0)
          / (xp.getD j 0 - xp.getD (j - 1) 0) = fp.getD j 0 - fp.getD (j - 1) 0 :=
      mul_div_cancel_right₀ _ (ne_of_gt hd)
    linarith

theorem np_interp_lower (x : ℚ) (xp fp : List ℚ) (hne : xp ≠ [])
    (hlen : xp.length = fp.length) (hxp : List.Pairwise (· ≤ ·) xp)
    (hfp : List.Pairwise (· ≤ ·) fp)
    (hpos : 0 < xp.countP (fun v => decide (v ≤ x))) :
    fp.getD (xp.countP (fun v => decide (v ≤ x)) - 1) 0 ≤ np_interp x xp fp := by
  have hnpos : 0 < xp.length := List.length_pos.mpr hne
  rw [np_interp_eq]
  split_ifs with h0 hL
  · rw [h0] at hpos
    exact absurd hpos (lt_irrefl 0)
  · have hfne : fp ≠ [] := by
      intro hh
      rw [hh, List.length_nil] at hlen
      omega
    rw [getLastD_eq_getD fp 0 hfne, hL, hlen]
  · set j := xp.countP (fun v => decide (v ≤ x)) with hj
    have hj_pos : 0 < j := Nat.pos_of_ne_zero h0
    have hj_lt : j < xp.length := lt_of_le_of_ne (List.countP_le_length _) hL
    have hx0 : xp.getD (j - 1) 0 ≤ x := count_pos_le x xp hxp hj_pos
    have hx1 : x < xp.getD j 0 := count_lt_gt x xp hxp hj_lt
    have hyle : fp.getD (j - 1) 0 ≤ fp.getD j 0 :=
      pairwise_getD_mono hfp (Nat.sub_le j 1) (hlen ▸ hj_lt)
    have hd : 0 < xp.getD j 0 - xp.getD (j - 1) 0 := by linarith
    have hnum : 0 ≤ (fp.getD j 0 - fp.getD (j - 1) 0) * (x - xp.getD (j - 1) 0) :=
      mul_nonneg (by linarith) (by linarith)
    have h2 : 0 ≤ (fp.getD j 0 - fp.getD (j - 1) 0) * (x - xp.getD (j - 1) 0)
          / (xp.getD j 0 - xp.getD (j - 1) 0) :=
      div_nonneg hnum (le_of_lt hd)
    linarith

theorem np_interp_mono (xp fp : List ℚ) (hne : xp ≠ []) (hlen : xp.length = fp.length)
    (hxp : List.Pairwise (· ≤ ·) xp) (hfp : List.Pairwise (· ≤ ·) fp)
    {u v : ℚ} (huv : u ≤ v) :
    np_interp u xp fp ≤ np_interp v xp fp := by
  have hnpos : 0 < xp.length := List.length_pos.mpr hne
  have hmono : xp.countP (fun w => decide (w ≤ u)) ≤ xp.countP (fun w => decide (w ≤ v)) := by
    apply List.countP_mono_left
    intro w _ hw
    simp only [decide_eq_true_eq] at hw ⊢
    exact le_trans hw huv
  rcases Nat.lt_or_ge (xp.countP (fun w => decide (w ≤ u)))
      (xp.countP (fun w => decide (w ≤ v))) with hlt | hge
  · have hvpos : 0 < xp.countP (fun w => decide (w ≤ v)) :=
      lt_of_le_of_lt (Nat.zero_le _) hlt
    have hu := np_interp_upper u xp fp hne hlen hxp hfp
    have hv := np_interp_lower v xp fp hne hlen hxp hfp hvpos
    have hcle : xp.countP (fun w => decide (w ≤ v)) ≤ xp.length := List.countP_le_length _
    have hstep : min (xp.countP (fun w => decide (w ≤ u))) (xp.length - 1)
        ≤ xp.countP (fun w => decide (w ≤ v)) - 1 := by omega
    have hk : xp.countP (fun w => decide (w ≤ v)) - 1 < fp.length := by omega
    have hmid := pairwise_getD_mono hfp hstep hk
    exact le_trans hu (le_trans hmid hv)
  · have heq : xp.countP (fun w => decide (w ≤ u)) = xp.countP (fun w => decide (w ≤ v)) :=
      le_antisymm hmono hge
    rw [np_interp_eq, np_interp_eq, ← heq]
    split_ifs with h0 hL
    · exact le_refl _
    · exact le_refl _
    · set j := xp.countP (fun w => decide (w ≤ u)) with hj
      have hj_pos : 0 < j := Nat.pos_of_ne_zero h0
      have hj_lt : j < xp.length := lt_of_le_of_ne (List.countP_le_length _) hL
      have hx0 : xp.getD (j - 1) 0 ≤ u := count_pos_le u xp hxp hj_pos
      have hx1 : u < xp.getD j 0 := count_lt_gt u xp hxp hj_lt
      have hyle : fp.getD (j - 1) 0 ≤ fp.getD j 0 :=
        pairwise_getD_mono hfp (Nat.sub_le j 1) (hlen ▸ hj_lt)
      have hd : 0 < xp.getD j 0 - xp.getD (j - 1) 0 := by linarith
      have key : (fp.getD j 0 - fp.getD (j - 1) 0) * (u - xp.getD (j - 1) 0)
          ≤ (fp.getD j 0 - fp.getD (j - 1) 0) * (v - xp.getD (j - 1) 0) :=
        mul_le_mul_of_nonneg_left (by linarith) (by linarith)
      have h2 : (fp.getD j 0 - fp.getD (j - 1) 0) * (u - xp.getD (j - 1) 0)
            / (xp.getD j 0 - xp.getD (j - 1) 0)
          ≤ (fp.getD j 0 - fp.getD (j - 1) 0) * (v - xp.getD (j - 1) 0)
            / (xp.getD j 0 - xp.getD (j - 1) 0) :=
        (div_le_div_iff_of_pos_right hd).mpr key
      linarith

/-- C6: for every 8-weight vector (non-negative, positive total) whose
passing curve spans the 10/30/60 percentiles, the derived diameters
satisfy `D10 ≤ D30 ≤ D60` (the interpolated size is monotone in the
target percentile because both reversed columns are non-decreasing). -/
theorem c6_diameters_ordered (ws : List ℚ) (h8 : ws.length = 8)
    (hnn : ∀ w ∈ ws, 0 ≤ w) (hpos : 0 < ws.sum)
    (hdom : (pctPassingQ ws).reverse.headD 0 ≤ 10
      ∧ 60 ≤ (pctPassingQ ws).reverse.getLastD 0) :
    (interpret ws).D10 ≤ (interpret ws).D30 ∧ (interpret ws).D30 ≤ (interpret ws).D60 := by
  have hlenQ : (pctPassingQ ws).length = 8 := by
    rw [pctPassingQ, List.length_map, cumulativePctRetainedQ, cumsumQFrom_length,
      pctRetainedQ, List.length_map, h8]
  have hne : (pctPassingQ ws).reverse ≠ [] := by
    intro hh
    have h2 := List.reverse_eq_nil_iff.mp hh
    rw [h2] at hlenQ
    simp at hlenQ
  have hlen : (pctPassingQ ws).reverse.length = sieve_sizes.reverse.length := by
    rw [List.length_reverse, hlenQ]
    rfl
  have hchain : List.Chain' (fun a b => b ≤ a) (pctPassingQ ws) :=
    pctPassingQ_antitone ws (cumsumQFrom_chain _ (pctRetainedQ_nonneg ws hnn hpos) 0)
  haveI : IsTrans ℚ (fun a b => b ≤ a) := ⟨fun a b c hab hbc => le_trans hbc hab⟩
  have hxp : List.Pairwise (· ≤ ·) (pctPassingQ ws).reverse := by
    rw [List.pairwise_reverse]
    exact List.chain'_iff_pairwise.mp hchain
  have hfp : List.Pairwise (· ≤ ·) sieve_sizes.reverse := by
    with_unfolding_all decide
  have h1 := np_interp_mono _ _ hne hlen hxp hfp (show (10 : ℚ) ≤ 30 by norm_num)
  have h2 := np_interp_mono _ _ hne hlen hxp hfp (show (30 : ℚ) ≤ 60 by norm_num)
  exact ⟨h1, h2⟩

set_option maxRecDepth 20000 in
/-- Witness for C6 at the spec's worked example. -/
theorem c6_diameters_ordered_witness :
    (interpret [0, 50, 100, 150, 150, 100, 50, 0]).D10
      ≤ (interpret [0, 50, 100, 150, 150, 100, 50, 0]).D30
    ∧ (interpret [0, 50, 100, 150, 150, 100, 50, 0]).D30
      ≤ (interpret [0, 50, 100, 150, 150, 100, 50, 0]).D60 :=
  c6_diameters_ordered [0, 50, 100, 150, 150, 100, 50, 0] (by decide)
    (by with_unfolding_all decide) (by with_unfolding_all decide)
    ⟨by with_unfolding_all decide, by with_unfolding_all decide⟩

set_option maxRecDepth 20000 in
/-- C4 counterexample: at the spec's worked example the program's only
output label is the D10-based classification string `Sand`; it is neither
`well-graded` nor `poorly-graded`, so no gradation label satisfying the
claimed Cu/Cc rule is part of the output. -/
theorem c4_counterexample :
    (interpret [0, 50, 100, 150, 150, 100, 50, 0]).classification = ("Sand")
    ∧ (interpret [0, 50, 100, 150, 150, 100, 50, 0]).classification ≠ ("well-graded")
    ∧ (interpret [0, 50, 100, 150, 150, 100, 50, 0]).classification ≠ ("poorly-graded") :=
  ⟨by with_unfolding_all decide, by with_unfolding_all decide, by with_unfolding_all decide⟩

/-- C4 (amended): the classification label in the output is computed from
D10 alone by the thresholds of lines 131-135 — `Fine soil (silt/clay)`
iff `D10 < 0.075`, `Sand` iff `0.075 ≤ D10 < 2`, `Gravel or Coarse soil`
iff `2 ≤ D10`; no well-graded or poorly-graded gradation label is produced. -/
theorem c4_classification_from_d10 :
    (∀ ws : List ℚ, (interpret ws).classification = classificationOf (interpret ws).D10)
    ∧ ∀ d10 : ℚ,
        (classificationOf d10 = ("Fine soil (silt/clay)") ↔ d10 < 0.075)
        ∧ (classificationOf d10 = ("Sand") ↔ (0.075 ≤ d10 ∧ d10 < 2))
        ∧ (classificationOf d10 = ("Gravel or Coarse soil") ↔ 2 ≤ d10)
        ∧ classificationOf d10 ≠ ("well-graded")
        ∧ classificationOf d10 ≠ ("poorly-graded") := by
  constructor
  · intro ws
    rfl
  · intro d10
    have sFS : ("Fine soil (silt/clay)" : String) ≠ ("Sand") := by decide
    have sFG : ("Fine soil (silt/clay)" : String) ≠ ("Gravel or Coarse soil") := by decide
    have sSG : ("Sand" : String) ≠ ("Gravel or Coarse soil") := by decide
    have sFW : ("Fine soil (silt/clay)" : String) ≠ ("well-graded") := by decide
    have sFP : ("Fine soil (silt/clay)" : String) ≠ ("poorly-graded") := by decide
    have sSW : ("Sand" : String) ≠ ("well-graded") := by decide
    have sSP : ("Sand" : String) ≠ ("poorly-graded") := by decide
    have sGW : ("Gravel or Coarse soil" : String) ≠ ("well-graded") := by decide
    have sGP : ("Gravel or Coarse soil" : String) ≠ ("poorly-graded") := by decide
    by_cases h1 : d10 < 0.075
    · have h2 : d10 < 2 := lt_trans h1 (by norm_num)
      have h1n : ¬ (0.075 : ℚ) ≤ d10 := not_le.mpr h1
      have h2n : ¬ (2 : ℚ) ≤ d10 := not_le.mpr h2
      simp [classificationOf, h1, sFS, sFG, sFW, sFP, h1n, h2n]
    · by_cases h2 : d10 < 2
      · have h1n : (0.075 : ℚ) ≤ d10 := not_lt.mp h1
        have h2n : ¬ (2 : ℚ) ≤ d10 := not_le.mpr h2
        simp [classificationOf, h1, h2, Ne.symm sFS, sSG, sSW, sSP, h1n, h2n]
      · have h2n : (2 : ℚ) ≤ d10 := not_lt.mp h2
        simp [classificationOf, h1, h2, Ne.symm sFG, Ne.symm sSG, sGW, sGP, h2n]

set_option maxRecDepth 20000 in
/-- C5 counterexample: with weights `[0,0,0,0,0,0,50,50]` the code's
interpolation (pan row included) yields `D10 = 0.015`, while the
pan-excluded curve the claim describes yields `0.075` — the two differ,
so the interpolation domain is not restricted to sizes `> 0`. -/
theorem c5_counterexample :
    interpolate_diameter [0, 0, 0, 0, 0, 0, 50, 50] 10 = 3 / 200
    ∧ interpolate_diameter_panExcluded [0, 0, 0, 0, 0, 0, 50, 50] 10 = 3 / 40
    ∧ interpolate_diameter [0, 0, 0, 0, 0, 0, 50, 50] 10
        ≠ interpolate_diameter_panExcluded [0, 0, 0, 0, 0, 0, 50, 50] 10 :=
  ⟨by with_unfolding_all decide, by with_unfolding_all decide, by with_unfolding_all decide⟩

/-- C5 (amended): the interpolation curve of `interpolate_diameter` is
built from ALL eight (%passing, sieve size) pairs — both columns
reversed in full, the pan pair (size 0) among them as the first entry of
the reversed size column; only the chart of line 100 excludes the pan. -/
theorem c5_pan_included (ws : List ℚ) (percent : ℚ) :
    interpolate_diameter ws percent
      = np_interp percent (pctPassingQ ws).reverse sieve_sizes.reverse
    ∧ sieve_sizes.reverse.headD 1 = 0
    ∧ (0 : ℚ) ∈ sieve_sizes
    ∧ sieve_sizes.reverse.length = 8 :=
  ⟨rfl, by with_unfolding_all decide, by with_unfolding_all decide, by decide⟩

/-- C8 counterexample: the token `-5` (a negative number) is accepted by
the validator — the input parses, no error is raised, and the table is
emitted with the negative weight in it. -/
theorem c8_counterexample :
    weight_retained ("1,1,1,1,1,1,1,-5")
      = some [.fin 1, .fin 1, .fin 1, .fin 1, .fin 1, .fin 1, .fin 1, .fin (-5)]
    ∧ runApp ("1,1,1,1,1,1,1,-5")
      = AppOutcome.emitted
          (mkTable [.fin 1, .fin 1, .fin 1, .fin 1, .fin 1, .fin 1, .fin 1, .fin (-5)])
    ∧ ((-5 : ℚ) < 0) :=
  ⟨by with_unfolding_all decide, by with_unfolding_all decide, by with_unfolding_all decide⟩

/-- C8 (amended): every weight accepted by the validator is exactly the
`float(...)` value of one of the comma-separated tokens — any signed
float literal is accepted, including negative numbers, so accepted
weights need not be non-negative. -/
theorem c8_any_float_accepted :
    (∀ (ts : List String) (ws : List PyVal), parseTokens ts = some ws →
        ∀ w ∈ ws, ∃ t ∈ ts, pyFloat t.trim = some w)
    ∧ (∃ q : ℚ, q < 0 ∧ pyFloat ("-5") = some (.fin q)) := by
  constructor
  · intro ts
    induction ts with
    | nil =>
      intro ws h w hw
      simp only [parseTokens, Option.some.injEq] at h
      rw [← h] at hw
      simp at hw
    | cons t r ih =>
      intro ws h w hw
      simp only [parseTokens] at h
      cases hpf : pyFloat t.trim with
      | none =>
        rw [hpf] at h
        simp at h
      | some v =>
        cases hpt : parseTokens r with
        | none =>
          rw [hpf, hpt] at h
          simp at h
        | some vs =>
          rw [hpf, hpt] at h
          simp only [Option.some.injEq] at h
          rw [← h] at hw
          rcases List.mem_cons.mp hw with rfl | hw2
          · exact ⟨t, List.mem_cons_self t r, hpf⟩
          · obtain ⟨t2, ht2, hf2⟩ := ih vs hpt w hw2
            exact ⟨t2, List.mem_cons_of_mem t ht2, hf2⟩
  · exact ⟨-5, by norm_num, by with_unfolding_all decide⟩

/-- Witness for the amended C8: a one-token list. -/
theorem c8_any_float_accepted_witness :
    ∃ t ∈ ["2"], pyFloat t.trim = some (.fin 2) :=
  c8_any_float_accepted.1 ["2"] [.fin 2] (by with_unfolding_all decide) (.fin 2) (by decide)
